import Mathlib

/-!
Verification of the bi-cluster-editing orchestrator (`biclustpy/main.py`).

The core under `src/` is the `Algorithm` strategy selector and the
`compute_bi_clusters` orchestrator.  The graph-model helpers
(`helpers.build_graph_from_weights`, `helpers.connected_components`,
`helpers.is_bi_clique`, `helpers.is_row`, `helpers.is_col`,
`helpers.node_to_col`) and the two solvers (`ilp.run`, `ch.run`) live in
collaborator files that are not part of the core; they are modelled from the
specification's interface contracts (spec sections 3, 4.3 and 6) and, for the
solvers, kept fully abstract as function parameters.

Numeric conventions: Python floats carrying weights, costs, time limits and
bias factors are modelled as rationals (`Rat`); node ids are naturals.
-/

namespace Biclustpy

/-- A problem instance: an `n × m` real-valued weight matrix, modelled as a
dimension pair and an entry function. -/
structure Weights where
  n : Nat
  m : Nat
  w : Nat → Nat → Rat

/-- Modelled from the spec: the bipartite graph object produced by the external
graph model (`networkx.Graph` in the source).  Node set = rows ∪ columns over
unified ids; only the node list and edge list are relevant to the core. -/
structure Graph where
  nodes : List Nat
  edges : List (Nat × Nat)
deriving DecidableEq, Repr

/-- Modelled from the spec: `helpers.is_row(node, num_rows)` — "A node's
row/column identity is determined solely by whether its index is below or
at/above the row count." -/
def is_row (node : Nat) (num_rows : Nat) : Bool :=
  node < num_rows

/-- Modelled from the spec: `helpers.is_col(node, num_rows)`. -/
def is_col (node : Nat) (num_rows : Nat) : Bool :=
  num_rows ≤ node

/-- Modelled from the spec: `helpers.node_to_col(node, num_rows)` — translation
from a unified node id back to a column index via the row-count offset. -/
def node_to_col (node : Nat) (num_rows : Nat) : Nat :=
  node - num_rows

/-- Modelled from the spec: `helpers.build_graph_from_weights(weights, range(n+m))`
— "builds a bipartite graph with an edge for every matrix entry > 0" over all
`n + m` node ids. -/
def build_graph_from_weights (weights : Weights) : Graph :=
  { nodes := List.range (weights.n + weights.m)
    edges := (List.range weights.n).flatMap (fun i =>
      (List.range weights.m).filterMap (fun k =>
        if 0 < weights.w i k then some (i, weights.n + k) else none)) }

/-- Adjacency in a graph: an undirected edge between `u` and `v`. -/
def adjacent (g : Graph) (u v : Nat) : Bool :=
  g.edges.any (fun e => (e.1 = u && e.2 = v) || (e.1 = v && e.2 = u))

/-- Neighbours of a node. -/
def neighbors (g : Graph) (u : Nat) : List Nat :=
  g.edges.filterMap (fun e =>
    if e.1 = u then some e.2 else if e.2 = u then some e.1 else none)

/-- One breadth step: add the not-yet-seen neighbours of the current set. -/
def expandReach (g : Graph) (s : List Nat) : List Nat :=
  s ++ ((s.flatMap (neighbors g)).filter (fun v => ¬ s.contains v)).dedup

/-- Fuel-bounded reachable set. -/
def reach (g : Graph) : Nat → List Nat → List Nat
  | 0, s => s
  | fuel + 1, s => reach g fuel (expandReach g s)

/-- The vertex set reachable from `u` (the connected component of `u`). -/
def componentOf (g : Graph) (u : Nat) : List Nat :=
  reach g g.nodes.length [u]

/-- The subgraph induced by a vertex subset. -/
def inducedSubgraph (g : Graph) (s : List Nat) : Graph :=
  { nodes := g.nodes.filter (fun v => s.contains v)
    edges := g.edges.filter (fun e => s.contains e.1 && s.contains e.2) }

/-- Worker for `connected_components`: sweep the node list in order, skipping
nodes already placed in an earlier component. -/
def componentsAux (g : Graph) : List Nat → List Nat → List Graph
  | [], _ => []
  | u :: rest, seen =>
    if seen.contains u then componentsAux g rest seen
    else
      let comp := componentOf g u
      inducedSubgraph g comp :: componentsAux g rest (seen ++ comp)

/-- Modelled from the spec: `helpers.connected_components(graph)` — "yields one
induced subgraph per component"; "components partition the graph's node set". -/
def connected_components (g : Graph) : List Graph :=
  componentsAux g g.nodes []

/-- Modelled from the spec: `helpers.is_bi_clique(subgraph, num_rows)` — the
verification predicate of spec §4.3: every row node of the subgraph is adjacent
to every column node of the subgraph (the subgraph carries only its induced
edges, so "no edge outside" is implicit in the representation). -/
def is_bi_clique (g : Graph) (num_rows : Nat) : Bool :=
  (g.nodes.filter (fun u => is_row u num_rows)).all (fun u =>
    (g.nodes.filter (fun v => is_col v num_rows)).all (fun v => adjacent g u v))

/-- The type of the external exact solver `ilp.run(weights, subgraph,
time_limit, tune)`: returns the edited subgraph, its cost, and an optimality
flag. -/
abbrev IlpSolver : Type :=
  Weights → Graph → Rat → Bool → Graph × Rat × Bool

/-- The type of the external heuristic solver `ch.run(weights, subgraph, alpha,
seed)`. -/
abbrev ChSolver : Type :=
  Weights → Graph → Rat → Option Int → Graph × Rat × Bool

/-- The strategy selector (`class Algorithm` in `main.py`): holds the selected
variant name and the parameters of both variants. -/
structure Algorithm where
  algorithm_name : String
  ilp_time_limit : Rat
  ilp_tune : Bool
  ch_alpha : Rat
  ch_seed : Option Int

/-- `Algorithm.__init__`: the default-constructed selector. -/
def Algorithm.init : Algorithm :=
  { algorithm_name := "ILP"
    ilp_time_limit := 60
    ilp_tune := false
    ch_alpha := 1
    ch_seed := none }

/-- `Algorithm.use_ilp(time_limit, tune)`. -/
def Algorithm.use_ilp (a : Algorithm) (time_limit : Rat) (tune : Bool) : Algorithm :=
  { a with algorithm_name := "ILP", ilp_time_limit := time_limit, ilp_tune := tune }

/-- `Algorithm.use_ch(alpha, seed)`. -/
def Algorithm.use_ch (a : Algorithm) (alpha : Rat) (seed : Option Int) : Algorithm :=
  { a with algorithm_name := "CH", ch_alpha := alpha, ch_seed := seed }

/-- `Algorithm.run(weights, subgraph)`: dispatch on the stored variant name;
an unrecognized name raises.  The two external solvers are passed in as
parameters since their implementations are outside the core. -/
def Algorithm.run (ilp_run : IlpSolver) (ch_run : ChSolver) (a : Algorithm)
    (weights : Weights) (subgraph : Graph) : Except String (Graph × Rat × Bool) :=
  if a.algorithm_name = "ILP" then
    Except.ok (ilp_run weights subgraph a.ilp_time_limit a.ilp_tune)
  else if a.algorithm_name = "CH" then
    Except.ok (ch_run weights subgraph a.ch_alpha a.ch_seed)
  else
    Except.error ("Invalid algorithm name \"" ++ a.algorithm_name ++ "\". Options: \"ILP\", \"CH\".")

instance {ε : Type u} {α : Type v} [DecidableEq ε] [DecidableEq α] :
    DecidableEq (Except ε α)
  | Except.error e, Except.error f =>
    if h : e = f then isTrue (h ▸ rfl)
    else isFalse (fun hc => h (Except.error.inj hc))
  | Except.error _, Except.ok _ => isFalse (fun hc => Except.noConfusion hc)
  | Except.ok _, Except.error _ => isFalse (fun hc => Except.noConfusion hc)
  | Except.ok a, Except.ok b =>
    if h : a = b then isTrue (h ▸ rfl)
    else isFalse (fun hc => h (Except.ok.inj hc))

/-- The shape of `algorithm.run` as consumed by the orchestrator. -/
abbrev SolverRun : Type :=
  Weights → Graph → Except String (Graph × Rat × Bool)

/-- A bi-cluster: a row-index list paired with a column-index list. -/
abbrev BiCluster : Type :=
  List Nat × List Nat

/-- The per-component bi-cluster construction loop shared by both branches of
`compute_bi_clusters`: rows keep their node id, columns are translated through
`node_to_col`. -/
def componentToBiCluster (num_rows : Nat) (component : Graph) : BiCluster :=
  component.nodes.foldl (fun bc node =>
    if is_row node num_rows then (bc.1 ++ [node], bc.2)
    else (bc.1, bc.2 ++ [node_to_col node num_rows])) ([], [])

/-- The diagnostic raised when a solver-returned component fails the bi-clique
check (lines 149–152 of `main.py`). -/
def biCliqueErrMsg (component : Graph) : String :=
  "Subgraph should be bi-clique but isn't." ++
    "\nNodes: " ++ toString component.nodes ++
    "\nEdges: " ++ toString component.edges

/-- The classification sweep (lines 110–120 of `main.py`): components that are
already bi-cliques become bi-clusters, the rest are queued as hard subgraphs. -/
def classify (num_rows : Nat) (components : List Graph) :
    List BiCluster × List Graph :=
  components.foldl (fun acc component =>
    if is_bi_clique component num_rows then
      (acc.1 ++ [componentToBiCluster num_rows component], acc.2)
    else
      (acc.1, acc.2 ++ [component])) ([], [])

/-- The inner verification loop over the components of a solver-returned
subgraph (lines 147–159 of `main.py`): each component is checked with
`is_bi_clique` and, on failure, the computation aborts with the diagnostic. -/
def processSolved (num_rows : Nat) (components : List Graph)
    (acc : List BiCluster) : Except String (List BiCluster) :=
  match components with
  | [] => Except.ok acc
  | component :: rest =>
    if is_bi_clique component num_rows then
      processSolved num_rows rest (acc ++ [componentToBiCluster num_rows component])
    else
      Except.error (biCliqueErrMsg component)

/-- The main solving loop of `compute_bi_clusters` (lines 133–160): run the
selector on each hard subgraph, accumulate cost and optimality, re-decompose
and verify the returned subgraph. -/
def solveLoop (run : SolverRun) (weights : Weights) (num_rows : Nat) :
    List Graph → List BiCluster → Rat → Bool →
      Except String (List BiCluster × Rat × Bool)
  | [], acc, obj_val, is_optimal => Except.ok (acc, obj_val, is_optimal)
  | subgraph :: rest, acc, obj_val, is_optimal => do
    let (bi_transitive_subgraph, local_obj_val, local_is_optimal) ← run weights subgraph
    let acc' ← processSolved num_rows
      (connected_components bi_transitive_subgraph) acc
    solveLoop run weights num_rows rest acc'
      (obj_val + local_obj_val) (is_optimal && local_is_optimal)

/-- `compute_bi_clusters(weights, algorithm)` (lines 69–173 of `main.py`),
parameterized over the selector's `run` operation. -/
def compute_bi_clusters (run : SolverRun) (weights : Weights) :
    Except String (List BiCluster × Rat × Bool) :=
  let num_rows := weights.n
  let graph := build_graph_from_weights weights
  let state := classify num_rows (connected_components graph)
  solveLoop run weights num_rows state.2 state.1 0 true

/-- The list of hard subgraphs the orchestrator queues for solving. -/
def hardSubgraphs (weights : Weights) : List Graph :=
  (classify weights.n (connected_components (build_graph_from_weights weights))).2

/-- The bi-clusters produced by the trivial classification alone. -/
def trivialBiClusters (weights : Weights) : List BiCluster :=
  (classify weights.n (connected_components (build_graph_from_weights weights))).1

/-- The edited subgraph a solver run yields on a subgraph (the input subgraph
itself when the run fails, a case never reached on successful computations). -/
def runGraph (run : SolverRun) (weights : Weights) (sg : Graph) : Graph :=
  match run weights sg with
  | Except.ok (bts, _, _) => bts
  | Except.error _ => sg

/-- The cost a solver run reports on a subgraph (`0` when the run fails). -/
def runCost (run : SolverRun) (weights : Weights) (sg : Graph) : Rat :=
  match run weights sg with
  | Except.ok (_, c, _) => c
  | Except.error _ => 0

/-- The optimality flag a solver run reports on a subgraph (`true` when the
run fails). -/
def runFlag (run : SolverRun) (weights : Weights) (sg : Graph) : Bool :=
  match run weights sg with
  | Except.ok (_, _, o) => o
  | Except.error _ => true

/-- The first connected component of a graph list failing the bi-clique
check. -/
def firstFailing (num_rows : Nat) (components : List Graph) : Option Graph :=
  components.find? (fun c => ! is_bi_clique c num_rows)

/-- How many times row index `r` occurs across the row lists of a bi-cluster
list. -/
def rowCount (bcs : List BiCluster) (r : Nat) : Nat :=
  (bcs.map (fun bc => bc.1.count r)).sum

/-- How many times column index `k` occurs across the column lists of a
bi-cluster list. -/
def colCount (bcs : List BiCluster) (k : Nat) : Nat :=
  (bcs.map (fun bc => bc.2.count k)).sum

/-- Concatenated node lists of a list of graphs. -/
def nodesOf (gs : List Graph) : List Nat :=
  gs.flatMap (fun g => g.nodes)

/-! ### Structural lemmas about the orchestrator's loops -/

lemma foldl_biCluster (num_rows : Nat) (l : List Nat) (a b : List Nat) :
    l.foldl (fun bc node =>
        if is_row node num_rows then (bc.1 ++ [node], bc.2)
        else (bc.1, bc.2 ++ [node_to_col node num_rows])) (a, b) =
      (a ++ l.filter (fun v => is_row v num_rows),
        b ++ (l.filter (fun v => is_col v num_rows)).map
          (fun v => node_to_col v num_rows)) := by
  induction l generalizing a b with
  | nil => simp
  | cons v l ih =>
    by_cases hv : is_row v num_rows
    · have hvn : v < num_rows := by simpa [is_row] using hv
      have hc : is_col v num_rows = false := by
        simp only [is_col, decide_eq_false_iff_not]
        omega
      simp [List.filter_cons, hv, hc, ih]
    · have hvn : ¬ v < num_rows := by simpa [is_row] using hv
      have hv' : is_row v num_rows = false := by simpa using hv
      have hc : is_col v num_rows = true := by
        simp only [is_col, decide_eq_true_eq]
        omega
      simp [List.filter_cons, hv', hc, ih]

lemma componentToBiCluster_eq (num_rows : Nat) (c : Graph) :
    componentToBiCluster num_rows c =
      (c.nodes.filter (fun v => is_row v num_rows),
        (c.nodes.filter (fun v => is_col v num_rows)).map
          (fun v => node_to_col v num_rows)) := by
  simpa using foldl_biCluster num_rows c.nodes [] []

lemma classify_foldl (num_rows : Nat) (comps : List Graph)
    (a : List BiCluster) (b : List Graph) :
    comps.foldl (fun acc component =>
        if is_bi_clique component num_rows then
          (acc.1 ++ [componentToBiCluster num_rows component], acc.2)
        else
          (acc.1, acc.2 ++ [component])) (a, b) =
      (a ++ (comps.filter (fun c => is_bi_clique c num_rows)).map
          (componentToBiCluster num_rows),
        b ++ comps.filter (fun c => ! is_bi_clique c num_rows)) := by
  induction comps generalizing a b with
  | nil => simp
  | cons c comps ih =>
    by_cases hc : is_bi_clique c num_rows
    · simp [List.filter_cons, hc, ih]
    · have hc' : is_bi_clique c num_rows = false := by simpa using hc
      simp [List.filter_cons, hc', ih]

lemma classify_eq (num_rows : Nat) (comps : List Graph) :
    classify num_rows comps =
      ((comps.filter (fun c => is_bi_clique c num_rows)).map
          (componentToBiCluster num_rows),
        comps.filter (fun c => ! is_bi_clique c num_rows)) := by
  simpa [classify] using classify_foldl num_rows comps [] []

lemma processSolved_ok (num_rows : Nat) (comps : List Graph)
    (acc acc' : List BiCluster)
    (h : processSolved num_rows comps acc = Except.ok acc') :
    (∀ c ∈ comps, is_bi_clique c num_rows = true) ∧
      acc' = acc ++ comps.map (componentToBiCluster num_rows) := by
  induction comps generalizing acc with
  | nil =>
    simp only [processSolved, Except.ok.injEq] at h
    simp [h]
  | cons c comps ih =>
    by_cases hc : is_bi_clique c num_rows
    · simp only [processSolved, hc, if_true] at h
      obtain ⟨hall, hacc⟩ := ih _ h
      refine ⟨?_, ?_⟩
      · intro d hd
        rcases List.mem_cons.mp hd with rfl | hd
        · exact hc
        · exact hall d hd
      · simp [hacc]
    · simp [processSolved, hc] at h

lemma processSolved_all_ok (num_rows : Nat) (comps : List Graph)
    (acc : List BiCluster)
    (h : ∀ c ∈ comps, is_bi_clique c num_rows = true) :
    processSolved num_rows comps acc =
      Except.ok (acc ++ comps.map (componentToBiCluster num_rows)) := by
  induction comps generalizing acc with
  | nil => simp [processSolved]
  | cons c comps ih =>
    have hc : is_bi_clique c num_rows = true := h c (by simp)
    have hrest : ∀ d ∈ comps, is_bi_clique d num_rows = true := by
      intro d hd
      exact h d (by simp [hd])
    simp [processSolved, hc, ih _ hrest]

lemma processSolved_err (num_rows : Nat) (comps : List Graph)
    (acc : List BiCluster) (comp : Graph)
    (h : firstFailing num_rows comps = some comp) :
    processSolved num_rows comps acc = Except.error (biCliqueErrMsg comp) := by
  induction comps generalizing acc with
  | nil => simp [firstFailing] at h
  | cons c comps ih =>
    by_cases hc : is_bi_clique c num_rows
    · have hfind : firstFailing num_rows comps = some comp := by
        simpa [firstFailing, List.find?_cons, hc] using h
      simp [processSolved, hc, ih _ hfind]
    · have hc' : is_bi_clique c num_rows = false := by simpa using hc
      have hcomp : c = comp := by
        simpa [firstFailing, List.find?_cons, hc'] using h
      simp [processSolved, hc', ← hcomp]

lemma solveLoop_cons_err (run : SolverRun) (w : Weights) (n : Nat)
    (sg : Graph) (rest : List Graph) (acc : List BiCluster) (obj0 : Rat)
    (opt0 : Bool) (e : String) (hr : run w sg = Except.error e) :
    solveLoop run w n (sg :: rest) acc obj0 opt0 = Except.error e := by
  simp only [solveLoop]
  rw [hr]
  rfl

lemma solveLoop_cons_ok (run : SolverRun) (w : Weights) (n : Nat)
    (sg : Graph) (rest : List Graph) (acc : List BiCluster) (obj0 : Rat)
    (opt0 : Bool) (bts : Graph) (c : Rat) (o : Bool)
    (hr : run w sg = Except.ok (bts, c, o)) :
    solveLoop run w n (sg :: rest) acc obj0 opt0 =
      Except.bind (processSolved n (connected_components bts) acc)
        (fun acc' => solveLoop run w n rest acc' (obj0 + c) (opt0 && o)) := by
  simp only [solveLoop]
  rw [hr]
  rfl

lemma solveLoop_ok_spec (run : SolverRun) (w : Weights) (n : Nat)
    (sgs : List Graph) :
    ∀ (acc : List BiCluster) (obj0 : Rat) (opt0 : Bool)
      (bcs : List BiCluster) (obj : Rat) (opt : Bool),
      solveLoop run w n sgs acc obj0 opt0 = Except.ok (bcs, obj, opt) →
      (∀ sg ∈ sgs, ∃ bts c o, run w sg = Except.ok (bts, c, o) ∧
          ∀ comp ∈ connected_components bts, is_bi_clique comp n = true) ∧
      opt = (opt0 && sgs.all (fun sg => runFlag run w sg)) ∧
      obj = obj0 + (sgs.map (fun sg => runCost run w sg)).sum ∧
      bcs = acc ++ sgs.flatMap (fun sg =>
        (connected_components (runGraph run w sg)).map
          (componentToBiCluster n)) := by
  induction sgs with
  | nil =>
    intro acc obj0 opt0 bcs obj opt h
    simp only [solveLoop, Except.ok.injEq, Prod.mk.injEq] at h
    obtain ⟨h1, h2, h3⟩ := h
    subst h1; subst h2; subst h3
    simp
  | cons sg rest ih =>
    intro acc obj0 opt0 bcs obj opt h
    cases hr : run w sg with
    | error e =>
      rw [solveLoop_cons_err run w n sg rest acc obj0 opt0 e hr] at h
      simp at h
    | ok trip =>
      obtain ⟨bts, c, o⟩ := trip
      rw [solveLoop_cons_ok run w n sg rest acc obj0 opt0 bts c o hr] at h
      cases hps : processSolved n (connected_components bts) acc with
      | error e =>
        rw [hps] at h
        simp [Except.bind] at h
      | ok acc' =>
        rw [hps] at h
        simp only [Except.bind] at h
        obtain ⟨ihall, ihopt, ihobj, ihbcs⟩ :=
          ih acc' (obj0 + c) (opt0 && o) bcs obj opt h
        obtain ⟨hpass, hacc'⟩ := processSolved_ok n _ acc acc' hps
        refine ⟨?_, ?_, ?_, ?_⟩
        · intro sg' hsg'
          rcases List.mem_cons.mp hsg' with rfl | hsg'
          · exact ⟨bts, c, o, hr, hpass⟩
          · exact ihall sg' hsg'
        · rw [ihopt]
          simp [List.all_cons, runFlag, hr, Bool.and_assoc]
        · rw [ihobj]
          simp [runCost, hr, add_assoc]
        · rw [ihbcs, hacc']
          simp [List.flatMap_cons, runGraph, hr, List.append_assoc]

lemma solveLoop_err_spec (run : SolverRun) (w : Weights) (n : Nat)
    (sgs₁ : List Graph) :
    ∀ (sg : Graph) (sgs₂ : List Graph) (acc : List BiCluster) (obj0 : Rat)
      (opt0 : Bool) (bts : Graph) (c : Rat) (o : Bool) (comp : Graph),
      (∀ sg' ∈ sgs₁, ∃ bts' c' o', run w sg' = Except.ok (bts', c', o') ∧
          ∀ cp ∈ connected_components bts', is_bi_clique cp n = true) →
      run w sg = Except.ok (bts, c, o) →
      firstFailing n (connected_components bts) = some comp →
      solveLoop run w n (sgs₁ ++ sg :: sgs₂) acc obj0 opt0 =
        Except.error (biCliqueErrMsg comp) := by
  induction sgs₁ with
  | nil =>
    intro sg sgs₂ acc obj0 opt0 bts c o comp _ hr hfind
    rw [List.nil_append,
      solveLoop_cons_ok run w n sg sgs₂ acc obj0 opt0 bts c o hr,
      processSolved_err n _ acc comp hfind]
    rfl
  | cons sg₀ sgs₁ ih =>
    intro sg sgs₂ acc obj0 opt0 bts c o comp hpre hr hfind
    obtain ⟨bts₀, c₀, o₀, hr₀, hpass₀⟩ := hpre sg₀ (by simp)
    rw [List.cons_append,
      solveLoop_cons_ok run w n sg₀ (sgs₁ ++ sg :: sgs₂) acc obj0 opt0
        bts₀ c₀ o₀ hr₀,
      processSolved_all_ok n _ acc hpass₀]
    simp only [Except.bind]
    exact ih sg sgs₂ _ (obj0 + c₀) (opt0 && o₀) bts c o comp
      (fun sg' hsg' => hpre sg' (by simp [hsg'])) hr hfind

lemma compute_eq (run : SolverRun) (weights : Weights) :
    compute_bi_clusters run weights =
      solveLoop run weights weights.n (hardSubgraphs weights)
        (trivialBiClusters weights) 0 true :=
  rfl

/-! ### Concrete instances used to exercise the theorems -/

/-- The 2×2 diagonal instance `[[1,-1],[-1,1]]` of the spec's concrete
scenario. -/
def wDiag : Weights :=
  ⟨2, 2, fun i k => if i = k then 1 else -1⟩

/-- A 2×2 instance `[[1,1],[-1,1]]` whose single connected component is not a
bi-clique. -/
def wHard : Weights :=
  ⟨2, 2, fun i k => if i = 1 ∧ k = 0 then -1 else 1⟩

/-- A 1×1 all-positive instance: a single trivial bi-clique. -/
def wSingle : Weights :=
  ⟨1, 1, fun _ _ => 1⟩

/-- The hard component of `wDiag`-sized instance `wHard`: rows 0,1, columns
2,3, with edge (1,2) missing. -/
def exGraphHard : Graph :=
  ⟨[0, 1, 2, 3], [(0, 2), (0, 3), (1, 3)]⟩

/-- A correctly edited version of `exGraphHard`: two disjoint 1×1
bi-cliques. -/
def exSolved : Graph :=
  ⟨[0, 1, 2, 3], [(0, 2), (1, 3)]⟩

/-- A solver run that returns its input subgraph unedited. -/
def exRunBad : SolverRun :=
  fun _ sg => Except.ok (sg, 2, true)

/-- A solver run that always returns `exSolved` with cost 2, claiming
optimality. -/
def exRunEdit : SolverRun :=
  fun _ _ => Except.ok (exSolved, 2, true)

/-- A solver run that always returns `exSolved` with cost 2, not claiming
optimality. -/
def exRunNonOpt : SolverRun :=
  fun _ _ => Except.ok (exSolved, 2, false)

/-- A concrete exact solver stub. -/
def exIlp : IlpSolver :=
  fun _ sg _ _ => (sg, 0, true)

/-- A concrete heuristic solver stub. -/
def exCh : ChSolver :=
  fun _ sg _ _ => (sg, 0, false)

/-- A selector whose stored variant name is neither of the two valid
options. -/
def badAlg : Algorithm :=
  ⟨"FOO", 60, false, 1, none⟩

/-! ### Claims -/

/-- Claim C2: on every successful computation, the returned optimality flag
equals the logical AND of the optimality flags reported by the selector's run
over all hard subgraphs (vacuously true when there are none); moreover every
hard subgraph's run did return a triple. -/
theorem optimality_flag_is_and_of_solver_flags
    (run : SolverRun) (weights : Weights) (bcs : List BiCluster) (obj : Rat)
    (opt : Bool)
    (h : compute_bi_clusters run weights = Except.ok (bcs, obj, opt)) :
    (∀ sg ∈ hardSubgraphs weights, ∃ r, run weights sg = Except.ok r) ∧
      opt = (hardSubgraphs weights).all (fun sg => runFlag run weights sg) := by
  rw [compute_eq] at h
  obtain ⟨hall, hopt, -, -⟩ :=
    solveLoop_ok_spec run weights weights.n (hardSubgraphs weights)
      (trivialBiClusters weights) 0 true bcs obj opt h
  refine ⟨?_, by simpa using hopt⟩
  intro sg hsg
  obtain ⟨bts, c, o, hr, -⟩ := hall sg hsg
  exact ⟨(bts, c, o), hr⟩

/-- Witness for C2 on the concrete instance `wHard` with a solver reporting
`is_optimal = false`. -/
theorem optimality_flag_is_and_of_solver_flags_witness :
    (false : Bool) =
      (hardSubgraphs wHard).all (fun sg => runFlag exRunNonOpt wHard sg) :=
  (optimality_flag_is_and_of_solver_flags exRunNonOpt wHard
    ([([0], [0]), ([1], [1])]) (0 + 2) false (by rfl)).2

/-- Claim C3: on every successful computation, the returned objective value
equals the sum of the costs reported by the selector's run over the hard
subgraphs; components that are already bi-cliques contribute nothing because
they never reach a solver. -/
theorem objective_is_sum_of_solver_costs
    (run : SolverRun) (weights : Weights) (bcs : List BiCluster) (obj : Rat)
    (opt : Bool)
    (h : compute_bi_clusters run weights = Except.ok (bcs, obj, opt)) :
    (∀ sg ∈ hardSubgraphs weights, ∃ r, run weights sg = Except.ok r) ∧
      obj = ((hardSubgraphs weights).map
        (fun sg => runCost run weights sg)).sum := by
  rw [compute_eq] at h
  obtain ⟨hall, -, hobj, -⟩ :=
    solveLoop_ok_spec run weights weights.n (hardSubgraphs weights)
      (trivialBiClusters weights) 0 true bcs obj opt h
  refine ⟨?_, by simpa using hobj⟩
  intro sg hsg
  obtain ⟨bts, c, o, hr, -⟩ := hall sg hsg
  exact ⟨(bts, c, o), hr⟩

/-- Witness for C3 on the concrete instance `wHard`, whose single hard
subgraph is solved at reported cost 2. -/
theorem objective_is_sum_of_solver_costs_witness :
    (2 : Rat) =
      ((hardSubgraphs wHard).map (fun sg => runCost exRunEdit wHard sg)).sum := by
  have h := (objective_is_sum_of_solver_costs exRunEdit wHard
    ([([0], [0]), ([1], [1])]) (0 + 2) true (by rfl)).2
  simpa using h

/-- Claim C6, counterexample: with the unrecognized variant name "FOO" and the
1×1 all-positive weight matrix, the computation does not fail at all — there
are no hard subgraphs, the selector's run is never reached, and a normal
result is returned.  This refutes "for every input weight matrix … the
computation fails". -/
theorem invalid_name_counterexample :
    compute_bi_clusters (Algorithm.run exIlp exCh badAlg) wSingle =
      Except.ok ([([0], [0])], 0, true) := by
  rfl

/-- Claim C6, amended: with an unrecognized variant name, every invocation of
the selector's run fails with the configuration error naming the invalid name
and the two valid options, and on any instance with at least one hard subgraph
the whole computation aborts with that error. -/
theorem invalid_name_errors_on_first_solve
    (ilp_run : IlpSolver) (ch_run : ChSolver) (a : Algorithm)
    (weights : Weights)
    (h1 : a.algorithm_name ≠ "ILP") (h2 : a.algorithm_name ≠ "CH") :
    (∀ sg, Algorithm.run ilp_run ch_run a weights sg =
        Except.error ("Invalid algorithm name \"" ++ a.algorithm_name ++
          "\". Options: \"ILP\", \"CH\".")) ∧
      (∀ sg rest, hardSubgraphs weights = sg :: rest →
        compute_bi_clusters (Algorithm.run ilp_run ch_run a) weights =
          Except.error ("Invalid algorithm name \"" ++ a.algorithm_name ++
            "\". Options: \"ILP\", \"CH\".")) := by
  have hrun : ∀ sg, Algorithm.run ilp_run ch_run a weights sg =
      Except.error ("Invalid algorithm name \"" ++ a.algorithm_name ++
        "\". Options: \"ILP\", \"CH\".") := by
    intro sg
    simp [Algorithm.run, h1, h2]
  refine ⟨hrun, ?_⟩
  intro sg rest hh
  rw [compute_eq, hh]
  exact solveLoop_cons_err _ weights weights.n sg rest
    (trivialBiClusters weights) 0 true _ (hrun sg)

/-- Witness for the amended C6: on `wHard` (one hard subgraph) with variant
name "FOO", the computation aborts with the configuration error. -/
theorem invalid_name_errors_on_first_solve_witness :
    compute_bi_clusters (Algorithm.run exIlp exCh badAlg) wHard =
      Except.error "Invalid algorithm name \"FOO\". Options: \"ILP\", \"CH\"." :=
  (invalid_name_errors_on_first_solve exIlp exCh badAlg wHard
    (by decide) (by decide)).2 exGraphHard [] (by rfl)

/-- Claim C7: the selector's run dispatches on the stored variant name — with
"ILP" it delegates to the exact solver with the stored time limit and tuning
flag, with "CH" to the heuristic solver with the stored bias factor and seed,
returning the delegated triple unchanged. -/
theorem algorithm_run_dispatch
    (ilp_run : IlpSolver) (ch_run : ChSolver) (a : Algorithm)
    (weights : Weights) (sg : Graph) :
    (a.algorithm_name = "ILP" →
        Algorithm.run ilp_run ch_run a weights sg =
          Except.ok (ilp_run weights sg a.ilp_time_limit a.ilp_tune)) ∧
      (a.algorithm_name = "CH" →
        Algorithm.run ilp_run ch_run a weights sg =
          Except.ok (ch_run weights sg a.ch_alpha a.ch_seed)) := by
  constructor
  · intro h
    simp [Algorithm.run, h]
  · intro h
    simp [Algorithm.run, h]

/-- Witness for C7 on concrete selectors for both variants. -/
theorem algorithm_run_dispatch_witness :
    Algorithm.run exIlp exCh Algorithm.init wHard exGraphHard =
        Except.ok (exIlp wHard exGraphHard 60 false) ∧
      Algorithm.run exIlp exCh (Algorithm.init.use_ch 1 none) wHard exGraphHard =
        Except.ok (exCh wHard exGraphHard 1 none) :=
  ⟨(algorithm_run_dispatch exIlp exCh Algorithm.init wHard exGraphHard).1 rfl,
    (algorithm_run_dispatch exIlp exCh (Algorithm.init.use_ch 1 none) wHard
      exGraphHard).2 rfl⟩

/-- Claim C8: the spec's concrete 2×2 scenario `[[1,-1],[-1,1]]` — two
disjoint 1×1 bi-cliques; for any selector run the orchestrator returns
`([([0],[0]), ([1],[1])], 0, true)` without solving anything. -/
theorem diag_two_by_two_scenario (run : SolverRun) :
    compute_bi_clusters run wDiag =
      Except.ok ([([0], [0]), ([1], [1])], 0, true) := by
  rfl

/-- Claim C9: a freshly constructed selector holds variant "ILP", time limit
60, tuning off, bias factor 1, no seed, and its run invokes the exact solver
with time limit 60 and tuning disabled. -/
theorem default_algorithm_is_ilp_60 :
    Algorithm.init.algorithm_name = "ILP" ∧
      Algorithm.init.ilp_time_limit = 60 ∧
      Algorithm.init.ilp_tune = false ∧
      Algorithm.init.ch_alpha = 1 ∧
      Algorithm.init.ch_seed = none ∧
      ∀ (ilp_run : IlpSolver) (ch_run : ChSolver) (weights : Weights)
        (sg : Graph),
        Algorithm.run ilp_run ch_run Algorithm.init weights sg =
          Except.ok (ilp_run weights sg 60 false) := by
  refine ⟨rfl, rfl, rfl, rfl, rfl, ?_⟩
  intro ilp_run ch_run weights sg
  rfl

/-- Claim C10: selecting one variant leaves the other variant's stored
parameters unchanged, while updating the name and its own parameters. -/
theorem variant_selection_frame
    (a : Algorithm) (t : Rat) (tune : Bool) (alpha : Rat)
    (seed : Option Int) :
    ((a.use_ilp t tune).algorithm_name = "ILP" ∧
        (a.use_ilp t tune).ilp_time_limit = t ∧
        (a.use_ilp t tune).ilp_tune = tune ∧
        (a.use_ilp t tune).ch_alpha = a.ch_alpha ∧
        (a.use_ilp t tune).ch_seed = a.ch_seed) ∧
      ((a.use_ch alpha seed).algorithm_name = "CH" ∧
        (a.use_ch alpha seed).ch_alpha = alpha ∧
        (a.use_ch alpha seed).ch_seed = seed ∧
        (a.use_ch alpha seed).ilp_time_limit = a.ilp_time_limit ∧
        (a.use_ch alpha seed).ilp_tune = a.ilp_tune) :=
  ⟨⟨rfl, rfl, rfl, rfl, rfl⟩, ⟨rfl, rfl, rfl, rfl, rfl⟩⟩

/-- Claim C1: when a hard subgraph's solver run returns a subgraph one of
whose connected components fails the `is_bi_clique` check — whatever the
reported optimality flag `o` — the whole computation aborts with the
exception naming that component's nodes and edges, and no partial result is
returned (all earlier hard subgraphs having been solved correctly). -/
theorem solver_contract_violation_aborts
    (run : SolverRun) (weights : Weights) (sgs₁ sgs₂ : List Graph)
    (sg : Graph) (bts : Graph) (c : Rat) (o : Bool) (comp : Graph)
    (hsplit : hardSubgraphs weights = sgs₁ ++ sg :: sgs₂)
    (hpre : ∀ sg' ∈ sgs₁, ∃ bts' c' o',
        run weights sg' = Except.ok (bts', c', o') ∧
        ∀ cp ∈ connected_components bts', is_bi_clique cp weights.n = true)
    (hr : run weights sg = Except.ok (bts, c, o))
    (hfind : firstFailing weights.n (connected_components bts) = some comp) :
    compute_bi_clusters run weights = Except.error (biCliqueErrMsg comp) := by
  rw [compute_eq, hsplit]
  exact solveLoop_err_spec run weights weights.n sgs₁ sg sgs₂
    (trivialBiClusters weights) 0 true bts c o comp hpre hr hfind

/-- Witness for C1: on `wHard`, a solver that returns its input unedited (and
even claims optimality) trips the check and the computation aborts with the
diagnostic naming the offending component. -/
theorem solver_contract_violation_aborts_witness :
    compute_bi_clusters exRunBad wHard =
      Except.error (biCliqueErrMsg exGraphHard) := by
  apply solver_contract_violation_aborts exRunBad wHard [] [] exGraphHard
    exGraphHard 2 true exGraphHard
  · rfl
  · intro sg' hsg'
    simp at hsg'
  · rfl
  · rfl

/-- Claim C4: when every connected component of the built graph is already a
bi-clique, the computation returns cost 0, optimality true, and one bi-cluster
per component — row nodes in the row list, column nodes translated through
`node_to_col` in the column list — for any selector run, which is never
invoked. -/
theorem already_bi_transitive_instance
    (run : SolverRun) (weights : Weights)
    (h : ∀ comp ∈ connected_components (build_graph_from_weights weights),
        is_bi_clique comp weights.n = true) :
    compute_bi_clusters run weights =
      Except.ok
        ((connected_components (build_graph_from_weights weights)).map
          (fun comp =>
            (comp.nodes.filter (fun v => is_row v weights.n),
              (comp.nodes.filter (fun v => is_col v weights.n)).map
                (fun v => node_to_col v weights.n))),
          0, true) := by
  have hhard : hardSubgraphs weights = [] := by
    rw [hardSubgraphs, classify_eq]
    simp only []
    rw [List.filter_eq_nil_iff]
    intro c hc
    simp [h c hc]
  have htriv : trivialBiClusters weights =
      (connected_components (build_graph_from_weights weights)).map
        (componentToBiCluster weights.n) := by
    rw [trivialBiClusters, classify_eq]
    simp only []
    rw [List.filter_eq_self.mpr h]
  rw [compute_eq, hhard, htriv]
  simp only [solveLoop, Except.ok.injEq, Prod.mk.injEq, and_true, true_and]
  exact List.map_congr_left (fun c _ => componentToBiCluster_eq weights.n c)

/-- Witness for C4 on the concrete instance `wDiag`, whose two components are
already 1×1 bi-cliques. -/
theorem already_bi_transitive_instance_witness :
    compute_bi_clusters exRunBad wDiag =
      Except.ok ([([0], [0]), ([1], [1])], 0, true) := by
  have h := already_bi_transitive_instance exRunBad wDiag (by decide)
  exact h

/-- Decidable form of the solver node-preservation contract on one subgraph:
if the run succeeds, the edited subgraph carries exactly the input subgraph's
nodes, and re-decomposing it yields components that partition those nodes. -/
def solverPreservesNodes (run : SolverRun) (weights : Weights)
    (sg : Graph) : Bool :=
  match run weights sg with
  | Except.ok (bts, _, _) =>
    decide (bts.nodes.Perm sg.nodes) &&
      decide ((nodesOf (connected_components bts)).Perm bts.nodes)
  | Except.error _ => true

lemma count_ctbc_row (num_rows r : Nat) (hr : r < num_rows) (c : Graph) :
    ((componentToBiCluster num_rows c).1).count r = c.nodes.count r := by
  rw [componentToBiCluster_eq]
  exact List.count_filter (by simp [is_row, hr])

lemma count_ctbc_col (num_rows k : Nat) (c : Graph) :
    ((componentToBiCluster num_rows c).2).count k =
      c.nodes.count (num_rows + k) := by
  rw [componentToBiCluster_eq]
  simp only [List.count_eq_countP, List.countP_map, List.countP_filter,
    Function.comp]
  apply List.countP_congr
  intro v _
  simp only [node_to_col, is_col, Bool.and_eq_true, beq_iff_eq,
    decide_eq_true_eq]
  omega

lemma rowCount_append (b₁ b₂ : List BiCluster) (r : Nat) :
    rowCount (b₁ ++ b₂) r = rowCount b₁ r + rowCount b₂ r := by
  simp [rowCount]

lemma colCount_append (b₁ b₂ : List BiCluster) (k : Nat) :
    colCount (b₁ ++ b₂) k = colCount b₁ k + colCount b₂ k := by
  simp [colCount]

lemma rowCount_map_ctbc (num_rows r : Nat) (hr : r < num_rows)
    (gs : List Graph) :
    rowCount (gs.map (componentToBiCluster num_rows)) r =
      (nodesOf gs).count r := by
  rw [rowCount, nodesOf, List.count_flatMap, List.map_map]
  congr 1
  exact List.map_congr_left (fun c _ => by
    simp [Function.comp, count_ctbc_row num_rows r hr c])

lemma colCount_map_ctbc (num_rows k : Nat) (gs : List Graph) :
    colCount (gs.map (componentToBiCluster num_rows)) k =
      (nodesOf gs).count (num_rows + k) := by
  rw [colCount, nodesOf, List.count_flatMap, List.map_map]
  congr 1
  exact List.map_congr_left (fun c _ => by
    simp [Function.comp, count_ctbc_col num_rows k c])

lemma nodesOf_filter_count (p : Graph → Bool) (comps : List Graph)
    (x : Nat) :
    (nodesOf (comps.filter p)).count x +
        (nodesOf (comps.filter (fun c => ! p c))).count x =
      (nodesOf comps).count x := by
  induction comps with
  | nil => simp [nodesOf]
  | cons c rest ih =>
    by_cases hc : p c
    · simp [nodesOf, List.filter_cons, hc, List.count_append] at *
      omega
    · have hc' : p c = false := by simpa using hc
      simp [nodesOf, List.filter_cons, hc', List.count_append] at *
      omega

lemma hard_flatMap_count (run : SolverRun) (w : Weights) (num_rows : Nat)
    (x : Nat) (cnt : List BiCluster → Nat)
    (hnil : cnt [] = 0)
    (happ : ∀ b₁ b₂, cnt (b₁ ++ b₂) = cnt b₁ + cnt b₂)
    (hmap : ∀ gs : List Graph,
        cnt (gs.map (componentToBiCluster num_rows)) = (nodesOf gs).count x)
    (hard : List Graph)
    (hpres : ∀ sg ∈ hard,
        (nodesOf (connected_components (runGraph run w sg))).Perm sg.nodes) :
    cnt (hard.flatMap (fun sg =>
        (connected_components (runGraph run w sg)).map
          (componentToBiCluster num_rows))) =
      (nodesOf hard).count x := by
  induction hard with
  | nil => simp [nodesOf, hnil]
  | cons sg rest ih =>
    rw [List.flatMap_cons, happ, hmap]
    have h1 : (nodesOf (connected_components (runGraph run w sg))).count x =
        sg.nodes.count x :=
      (hpres sg (by simp)).count_eq x
    rw [h1, ih (fun sg' h' => hpres sg' (by simp [h']))]
    simp [nodesOf, List.flatMap_cons, List.count_append]

/-- Claim C5: assuming the connected components partition the node ids
`0..n+m-1` and every successful solver run preserves its subgraph's node set
(with its re-decomposition partitioning those nodes), every row index below
`n` and every column index below `m` occurs in exactly one bi-cluster of a
successful computation's output — single-sided components included, since they
are counted like any other component. -/
theorem every_index_in_exactly_one_bi_cluster
    (run : SolverRun) (weights : Weights) (bcs : List BiCluster) (obj : Rat)
    (opt : Bool)
    (hcc : (nodesOf (connected_components
        (build_graph_from_weights weights))).Perm
        (List.range (weights.n + weights.m)))
    (hpres : ∀ sg ∈ hardSubgraphs weights,
        solverPreservesNodes run weights sg = true)
    (hok : compute_bi_clusters run weights = Except.ok (bcs, obj, opt)) :
    (∀ r, r < weights.n → rowCount bcs r = 1) ∧
      (∀ k, k < weights.m → colCount bcs k = 1) := by
  rw [compute_eq] at hok
  obtain ⟨hall, -, -, hbcs⟩ :=
    solveLoop_ok_spec run weights weights.n (hardSubgraphs weights)
      (trivialBiClusters weights) 0 true bcs obj opt hok
  have hperm : ∀ sg ∈ hardSubgraphs weights,
      (nodesOf (connected_components (runGraph run weights sg))).Perm
        sg.nodes := by
    intro sg hsg
    obtain ⟨bts, c, o, hr, -⟩ := hall sg hsg
    have hp := hpres sg hsg
    rw [solverPreservesNodes, hr] at hp
    simp only [Bool.and_eq_true, decide_eq_true_eq] at hp
    have hg : runGraph run weights sg = bts := by
      rw [runGraph, hr]
    rw [hg]
    exact hp.2.trans hp.1
  have main : ∀ (x : Nat) (cnt : List BiCluster → Nat),
      x ∈ List.range (weights.n + weights.m) →
      cnt [] = 0 →
      (∀ b₁ b₂, cnt (b₁ ++ b₂) = cnt b₁ + cnt b₂) →
      (∀ gs : List Graph,
        cnt (gs.map (componentToBiCluster weights.n)) =
          (nodesOf gs).count x) →
      cnt bcs = 1 := by
    intro x cnt hx hnil happ hmap
    rw [hbcs, happ]
    have htriv : trivialBiClusters weights =
        ((connected_components (build_graph_from_weights weights)).filter
          (fun c => is_bi_clique c weights.n)).map
          (componentToBiCluster weights.n) := by
      rw [trivialBiClusters, classify_eq]
    have hhard : hardSubgraphs weights =
        (connected_components (build_graph_from_weights weights)).filter
          (fun c => ! is_bi_clique c weights.n) := by
      rw [hardSubgraphs, classify_eq]
    rw [htriv, hmap,
      hard_flatMap_count run weights weights.n x cnt hnil happ hmap
        (hardSubgraphs weights) hperm]
    rw [hhard, nodesOf_filter_count]
    rw [hcc.count_eq x]
    exact List.count_eq_one_of_mem (List.nodup_range _) hx
  constructor
  · intro r hr
    exact main r (fun bcs' => rowCount bcs' r)
      (List.mem_range.mpr (by omega))
      (by simp [rowCount])
      (fun b₁ b₂ => rowCount_append b₁ b₂ r)
      (fun gs => rowCount_map_ctbc weights.n r hr gs)
  · intro k hk
    exact main (weights.n + k) (fun bcs' => colCount bcs' k)
      (List.mem_range.mpr (by omega))
      (by simp [colCount])
      (fun b₁ b₂ => colCount_append b₁ b₂ k)
      (fun gs => colCount_map_ctbc weights.n k gs)

/-- Witness for C5 on `wHard` with a solver returning a properly edited
subgraph: both row indices and both column indices each appear exactly once
across the output bi-clusters. -/
theorem every_index_in_exactly_one_bi_cluster_witness :
    rowCount [([0], [0]), ([1], [1])] 0 = 1 ∧
      rowCount [([0], [0]), ([1], [1])] 1 = 1 ∧
      colCount [([0], [0]), ([1], [1])] 0 = 1 ∧
      colCount [([0], [0]), ([1], [1])] 1 = 1 := by
  have h := every_index_in_exactly_one_bi_cluster exRunEdit wHard
    ([([0], [0]), ([1], [1])]) (0 + 2) true (by decide) (by decide) (by rfl)
  exact ⟨h.1 0 (by decide), h.1 1 (by decide),
    h.2 0 (by decide), h.2 1 (by decide)⟩

end Biclustpy
